import Mathlib

/-!
Verification of the extraction core of the hamvoip_scripts repository
(src/hamvoip_directory_tool.py and src/get_data_from_pdf.py).

The core is the function `extract_extensions` (hamvoip_directory_tool.py,
lines 94-119) and the textually identical extraction loops of
get_data_from_pdf.py (lines 73-96).  Both scan the extracted PDF text with
two Python regular expressions:

  pattern_3digits = r'(3\d{2}) - ([A-Z0-9]+) - ([^0-9\n]+)'
  pattern_4digits = r'(\d{4,}) - (.*?)(?=\d{4,} -|\n|$)'

and classify the matches of the second pattern by `len(str(int(number)))`.

The embedding below models `re.findall` for exactly these two patterns at
the level of ASCII character lists (the character classes \d, [A-Z0-9],
[^0-9\n] and `.` are modelled over ASCII, which covers every character the
patterns can capture from the directory text).  Both patterns are
deterministic in the following sense, which the embedding exploits:

* in pattern_3digits, the greedy runs `[A-Z0-9]+` and `[^0-9\n]+` are each
  followed by a character (a space, respectively nothing) that cannot occur
  inside the run, so backtracking can never shorten them: each capture is
  exactly the maximal run;
* in pattern_4digits, the greedy run `\d{4,}` is followed by a space, which
  is not a digit, so it is the maximal digit run (of length at least 4);
  the lazy `(.*?)` extends one non-newline character at a time until the
  lookahead `(?=\d{4,} -|\n|$)` holds, and the lookahead always eventually
  holds (at a newline or at the end of input), so the capture is the
  shortest such prefix.

`re.findall` scans left to right, producing non-overlapping matches and
resuming immediately after the end of each match (the lookahead of
pattern_4digits consumes nothing).  Every match of either pattern is at
least seven characters long, so a fuel argument equal to the length of the
input is sufficient for the scanners below.
-/

/-- ASCII decimal digit, the class `\d` / `[0-9]` of the patterns. -/
def isDigitChar (c : Char) : Bool :=
  decide (48 ≤ c.toNat ∧ c.toNat ≤ 57)

/-- The class `[A-Z0-9]` of pattern_3digits. -/
def isCodeChar (c : Char) : Bool :=
  decide ((65 ≤ c.toNat ∧ c.toNat ≤ 90) ∨ (48 ≤ c.toNat ∧ c.toNat ≤ 57))

/-- The class `[^0-9\n]` of pattern_3digits (newline has code 10). -/
def isLabelChar3 (c : Char) : Bool :=
  decide (¬ (48 ≤ c.toNat ∧ c.toNat ≤ 57) ∧ c.toNat ≠ 10)

/-- Characters removed by Python str.strip() (the ASCII whitespace set). -/
def isPySpace (c : Char) : Bool :=
  decide (c.toNat = 32 ∨ c.toNat = 9 ∨ c.toNat = 10 ∨ c.toNat = 11
    ∨ c.toNat = 12 ∨ c.toNat = 13)

/-- Python str.strip(): drop leading and trailing whitespace. -/
def pyStrip (l : List Char) : List Char :=
  ((l.dropWhile isPySpace).reverse.dropWhile isPySpace).reverse

/-- Python str.upper() on one ASCII character. -/
def pyToUpper (c : Char) : Char :=
  if 97 ≤ c.toNat ∧ c.toNat ≤ 122 then Char.ofNat (c.toNat - 32) else c

/-- Python str.upper() on a string, as a character list. -/
def pyUpper (l : List Char) : List Char :=
  l.map pyToUpper

/-- Python int() on a string of decimal digits. -/
def digitsToNat (l : List Char) : Nat :=
  l.foldl (fun acc c => acc * 10 + (c.toNat - 48)) 0

/-- Helper for `numDigits`, with explicit fuel (any fuel above the argument
gives the same answer, see `numDigitsAux_irrel`). -/
def numDigitsAux : Nat → Nat → Nat
  | 0, _ => 0
  | fuel + 1, n => if n < 10 then 1 else numDigitsAux fuel (n / 10) + 1

/-- Python len(str(n)) for a natural number n: the number of decimal digits
of n (1 for n = 0). -/
def numDigits (n : Nat) : Nat :=
  numDigitsAux (n + 1) n

/-- One attempted match of pattern_3digits `(3\d{2}) - ([A-Z0-9]+) - ([^0-9\n]+)`
anchored at the start of `s`.  On success, returns the three captured groups
and the remainder of the text after the match. -/
def matchA (s : List Char) :
    Option ((List Char × List Char × List Char) × List Char) :=
  match s with
  | c0 :: c1 :: c2 :: c3 :: c4 :: c5 :: r =>
    if c0 == '3' && isDigitChar c1 && isDigitChar c2
        && c3 == ' ' && c4 == '-' && c5 == ' ' then
      let code := r.takeWhile isCodeChar
      match r.dropWhile isCodeChar with
      | d0 :: d1 :: d2 :: r2 =>
        if code.isEmpty || !(d0 == ' ' && d1 == '-' && d2 == ' ') then none
        else
          let lab := r2.takeWhile isLabelChar3
          if lab.isEmpty then none
          else some (([c0, c1, c2], code, lab), r2.dropWhile isLabelChar3)
      | _ => none
    else none
  | _ => none

/-- The lookahead `(?=\d{4,} -|\n|$)` of pattern_4digits, tested at the
start of `t`. -/
def lookB (t : List Char) : Bool :=
  (4 ≤ (t.takeWhile isDigitChar).length
      && (match t.dropWhile isDigitChar with
          | a :: b :: _ => a == ' ' && b == '-'
          | [a] => a == ' ' && false
          | [] => false))
  || (match t with
      | c :: _ => c == '\n'
      | [] => true)

/-- The lazy capture `(.*?)` of pattern_4digits: consume non-newline
characters one at a time until the lookahead holds, returning the capture
and the remainder (at which the lookahead holds). -/
def takeLabelB : List Char → List Char × List Char
  | [] => ([], [])
  | c :: t =>
    if lookB (c :: t) then ([], c :: t)
    else
      let p := takeLabelB t
      (c :: p.1, p.2)

/-- One attempted match of pattern_4digits `(\d{4,}) - (.*?)(?=\d{4,} -|\n|$)`
anchored at the start of `s`.  On success, returns the two captured groups
and the remainder of the text after the match (the lookahead consumes
nothing). -/
def matchB (s : List Char) : Option ((List Char × List Char) × List Char) :=
  let ds := s.takeWhile isDigitChar
  if 4 ≤ ds.length then
    match s.dropWhile isDigitChar with
    | a :: b :: c :: r2 =>
      if a == ' ' && b == '-' && c == ' ' then
        some ((ds, (takeLabelB r2).1), (takeLabelB r2).2)
      else none
    | _ => none
  else none

/-- re.findall for pattern_3digits, with fuel: try a match at the current
position; on success emit the captures and resume after the match, on
failure advance one character. -/
def scanAF : Nat → List Char → List (List Char × List Char × List Char)
  | 0, _ => []
  | _ + 1, [] => []
  | fuel + 1, c :: cs =>
    match matchA (c :: cs) with
    | some pr => pr.1 :: scanAF fuel pr.2
    | none => scanAF fuel cs

/-- `pattern_3digits.findall(s)`: every match consumes at least one
character, so fuel `s.length` is sufficient. -/
def findall_3digits (s : List Char) : List (List Char × List Char × List Char) :=
  scanAF s.length s

/-- re.findall for pattern_4digits, with fuel. -/
def scanBF : Nat → List Char → List (List Char × List Char)
  | 0, _ => []
  | _ + 1, [] => []
  | fuel + 1, c :: cs =>
    match matchB (c :: cs) with
    | some pr => pr.1 :: scanBF fuel pr.2
    | none => scanBF fuel cs

/-- `pattern_4digits.findall(s)`. -/
def findall_4digits (s : List Char) : List (List Char × List Char) :=
  scanBF s.length s

/-- The classification loop over the matches of pattern_4digits
(hamvoip_directory_tool.py lines 110-117, get_data_from_pdf.py lines
89-96): `number = int(tok)`; if `len(str(number)) == 4` the row
`[number, name.strip()]` goes to data_4digits, otherwise to
data_longer_than_4digits. -/
def classify4 (ms : List (List Char × List Char)) :
    List (Nat × String) × List (Nat × String) :=
  match ms with
  | [] => ([], [])
  | m :: rest =>
    let p := classify4 rest
    let n := digitsToNat m.1
    if numDigits n = 4 then ((n, (⟨pyStrip m.2⟩ : String)) :: p.1, p.2)
    else (p.1, (n, (⟨pyStrip m.2⟩ : String)) :: p.2)

/-- `extract_extensions` of hamvoip_directory_tool.py (lines 94-119): the
3-digit rows `[int(number), callsign.strip().upper(), name.strip()]`, the
4-digit rows and the longer-than-4-digit rows, in first-matched order. -/
def extract_extensions (text : String) :
    List (Nat × String × String) × List (Nat × String) × List (Nat × String) :=
  ((findall_3digits text.data).map fun m =>
      (digitsToNat m.1, ((⟨pyUpper (pyStrip m.2.1)⟩ : String),
        (⟨pyStrip m.2.2⟩ : String))),
    (classify4 (findall_4digits text.data)).1,
    (classify4 (findall_4digits text.data)).2)

/-- The 3-digit extraction loop of get_data_from_pdf.py (lines 83-86): the
rows are `[int(number), callsign.strip().upper()]` — the name group is
matched but not stored. -/
def data_3digits_pdf (text : String) : List (Nat × String) :=
  (findall_3digits text.data).map fun m =>
    (digitsToNat m.1, (⟨pyUpper (pyStrip m.2.1)⟩ : String))

/-- The 4-digit list of get_data_from_pdf.py (lines 89-96). -/
def data_4digits_pdf (text : String) : List (Nat × String) :=
  (classify4 (findall_4digits text.data)).1

/-- The longer-than-4-digit list of get_data_from_pdf.py (lines 89-96). -/
def data_longer_than_4digits_pdf (text : String) : List (Nat × String) :=
  (classify4 (findall_4digits text.data)).2

/-- A cell of a Python data row: the rows of both files are heterogeneous
lists `[int, str, ...]`, modelled as lists of cells so the record
collections of the two files can be compared directly. -/
inductive Cell where
  | num : Nat → Cell
  | txt : String → Cell
deriving DecidableEq

/-- The 3-digit rows of get_data_from_pdf.py as Python data rows. -/
def rows_3digits_pdf (text : String) : List (List Cell) :=
  (data_3digits_pdf text).map fun e => [Cell.num e.1, Cell.txt e.2]

/-- The 3-digit rows of extract_extensions as Python data rows. -/
def rows_3digits_tool (text : String) : List (List Cell) :=
  ((extract_extensions text).1).map fun e =>
    [Cell.num e.1, Cell.txt e.2.1, Cell.txt e.2.2]

/-! Helper lemmas. -/

theorem all_takeWhile_self (p : Char → Bool) :
    ∀ l : List Char, (l.takeWhile p).all p = true := by
  intro l
  induction l with
  | nil => rfl
  | cons c t ih =>
    by_cases h : p c = true
    · simp [List.takeWhile_cons, h, ih]
    · simp [List.takeWhile_cons, h]

theorem mem_of_mem_dropWhile (p : Char → Bool) :
    ∀ l : List Char, ∀ x, x ∈ l.dropWhile p → x ∈ l := by
  intro l
  induction l with
  | nil => intro x h; simp [List.dropWhile] at h
  | cons c t ih =>
    intro x h
    by_cases hc : p c = true
    · rw [List.dropWhile_cons, if_pos hc] at h
      exact List.mem_cons_of_mem c (ih x h)
    · rw [List.dropWhile_cons, if_neg hc] at h
      exact h

theorem length_dropWhile_le_self (p : Char → Bool) :
    ∀ l : List Char, (l.dropWhile p).length ≤ l.length := by
  intro l
  induction l with
  | nil => simp [List.dropWhile]
  | cons c t ih =>
    by_cases hc : p c = true
    · rw [List.dropWhile_cons, if_pos hc]
      exact Nat.le_succ_of_le ih
    · rw [List.dropWhile_cons, if_neg hc]

theorem mem_of_mem_pyStrip {l : List Char} {x : Char} (h : x ∈ pyStrip l) :
    x ∈ l := by
  unfold pyStrip at h
  rw [List.mem_reverse] at h
  have h1 := mem_of_mem_dropWhile _ _ _ h
  rw [List.mem_reverse] at h1
  exact mem_of_mem_dropWhile _ _ _ h1

theorem isDigitChar_iff {c : Char} :
    isDigitChar c = true ↔ 48 ≤ c.toNat ∧ c.toNat ≤ 57 := by
  simp [isDigitChar]

theorem pyToUpper_of_codeChar {c : Char} (h : isCodeChar c = true) :
    pyToUpper c = c := by
  simp [isCodeChar] at h
  unfold pyToUpper
  rw [if_neg (by omega)]

theorem isCodeChar_mem_pyUpper_pyStrip {l : List Char}
    (h : l.all isCodeChar = true) :
    (pyUpper (pyStrip l)).all isCodeChar = true := by
  rw [List.all_eq_true] at h ⊢
  intro x hx
  unfold pyUpper at hx
  rw [List.mem_map] at hx
  obtain ⟨y, hy, hxy⟩ := hx
  have hyl : y ∈ l := mem_of_mem_pyStrip hy
  have hcode := h y hyl
  rw [← hxy, pyToUpper_of_codeChar hcode]
  exact hcode

theorem no_digit_pyStrip {l : List Char} (h : l.all isLabelChar3 = true) :
    (pyStrip l).all (fun c => !isDigitChar c) = true := by
  rw [List.all_eq_true] at h ⊢
  intro x hx
  have := h x (mem_of_mem_pyStrip hx)
  simp [isLabelChar3] at this
  simp [isDigitChar]
  omega

theorem numDigitsAux_irrel (f g n : Nat) (hf : n < f) (hg : n < g) :
    numDigitsAux f n = numDigitsAux g n := by
  induction f generalizing g n with
  | zero => omega
  | succ f ih =>
    cases g with
    | zero => omega
    | succ g =>
      simp only [numDigitsAux]
      by_cases h : n < 10
      · simp [h]
      · rw [if_neg h, if_neg h]
        have := ih g (n / 10) (by omega) (by omega)
        omega

theorem numDigits_lt_ten {n : Nat} (h : n < 10) : numDigits n = 1 := by
  simp [numDigits, numDigitsAux, h]

theorem numDigitsAux_succ (f n : Nat) :
    numDigitsAux (f + 1) n = if n < 10 then 1 else numDigitsAux f (n / 10) + 1 :=
  rfl

theorem numDigits_div10 {n : Nat} (h : 10 ≤ n) :
    numDigits n = numDigits (n / 10) + 1 := by
  unfold numDigits
  rw [numDigitsAux_succ, if_neg (by omega)]
  have := numDigitsAux_irrel n (n / 10 + 1) (n / 10) (by omega) (by omega)
  omega

theorem numDigits_of_four_digits {n : Nat} (h1 : 1000 ≤ n) (h2 : n ≤ 9999) :
    numDigits n = 4 := by
  rw [numDigits_div10 (by omega), numDigits_div10 (by omega),
    numDigits_div10 (by omega), numDigits_lt_ten (by omega)]

theorem matchA_sound {s : List Char}
    {pr : (List Char × List Char × List Char) × List Char}
    (h : matchA s = some pr) :
    (300 ≤ digitsToNat pr.1.1 ∧ digitsToNat pr.1.1 ≤ 399)
      ∧ pr.1.2.1.all isCodeChar = true
      ∧ pr.1.2.2.all isLabelChar3 = true
      ∧ pr.2.length < s.length := by
  rcases s with _ | ⟨c0, _ | ⟨c1, _ | ⟨c2, _ | ⟨c3, _ | ⟨c4, _ | ⟨c5, r⟩⟩⟩⟩⟩⟩ <;>
    simp only [matchA] at h
  · exact absurd h (by simp)
  · exact absurd h (by simp)
  · exact absurd h (by simp)
  · exact absurd h (by simp)
  · exact absurd h (by simp)
  · exact absurd h (by simp)
  · by_cases hcond : (c0 == '3' && isDigitChar c1 && isDigitChar c2
        && c3 == ' ' && c4 == '-' && c5 == ' ') = true
    · rw [if_pos hcond] at h
      rcases hdw : r.dropWhile isCodeChar with _ | ⟨d0, _ | ⟨d1, _ | ⟨d2, r2⟩⟩⟩ <;>
        rw [hdw] at h
      · exact absurd h (by simp)
      · exact absurd h (by simp)
      · exact absurd h (by simp)
      · dsimp only at h
        by_cases he : ((r.takeWhile isCodeChar).isEmpty
            || !(d0 == ' ' && d1 == '-' && d2 == ' ')) = true
        · rw [if_pos he] at h
          exact absurd h (by simp)
        · rw [if_neg he] at h
          by_cases hl : (r2.takeWhile isLabelChar3).isEmpty = true
          · rw [if_pos hl] at h
            exact absurd h (by simp)
          · rw [if_neg hl] at h
            injection h with hpr
            subst hpr
            simp only [Bool.and_eq_true, beq_iff_eq] at hcond
            obtain ⟨⟨⟨⟨⟨hc0, hc1⟩, hc2⟩, hc3⟩, hc4⟩, hc5⟩ := hcond
            subst hc0
            rw [isDigitChar_iff] at hc1 hc2
            have hval : digitsToNat ['3', c1, c2]
                = ((0 * 10 + ('3'.toNat - 48)) * 10 + (c1.toNat - 48)) * 10
                    + (c2.toNat - 48) := rfl
            have h51 : ('3' : Char).toNat = 51 := rfl
            have hlen1 : (r.dropWhile isCodeChar).length ≤ r.length :=
              length_dropWhile_le_self _ _
            rw [hdw] at hlen1
            have hlen2 : (r2.dropWhile isLabelChar3).length ≤ r2.length :=
              length_dropWhile_le_self _ _
            refine ⟨⟨?_, ?_⟩, all_takeWhile_self _ _, all_takeWhile_self _ _, ?_⟩
            · rw [hval]; omega
            · rw [hval]; omega
            · simp only [List.length_cons]
              simp only [List.length_cons] at hlen1
              omega
    · rw [if_neg hcond] at h
      exact absurd h (by simp)

theorem scanAF_mem :
    ∀ fuel (s : List Char) m, m ∈ scanAF fuel s →
      (300 ≤ digitsToNat m.1 ∧ digitsToNat m.1 ≤ 399)
        ∧ m.2.1.all isCodeChar = true ∧ m.2.2.all isLabelChar3 = true := by
  intro fuel
  induction fuel with
  | zero =>
    intro s m h
    simp [scanAF] at h
  | succ fuel ih =>
    intro s m h
    match s with
    | [] => simp [scanAF] at h
    | c :: cs =>
      cases hm : matchA (c :: cs) with
      | none =>
        rw [scanAF, hm] at h
        exact ih cs m h
      | some pr =>
        rw [scanAF, hm] at h
        rcases List.mem_cons.mp h with h1 | h1
        · subst h1
          obtain ⟨ha, hb, hc, _⟩ := matchA_sound hm
          exact ⟨ha, hb, hc⟩
        · exact ih pr.2 m h1

theorem classify4_mem :
    ∀ ms (tok lab : List Char), (tok, lab) ∈ ms →
      (numDigits (digitsToNat tok) = 4 →
        (digitsToNat tok, (⟨pyStrip lab⟩ : String)) ∈ (classify4 ms).1)
      ∧ (numDigits (digitsToNat tok) ≠ 4 →
        (digitsToNat tok, (⟨pyStrip lab⟩ : String)) ∈ (classify4 ms).2) := by
  intro ms
  induction ms with
  | nil => intro tok lab h; simp at h
  | cons m rest ih =>
    intro tok lab h
    rcases List.mem_cons.mp h with h1 | h1
    · subst h1
      constructor
      · intro h4
        rw [classify4]
        rw [if_pos h4]
        exact List.mem_cons_self _ _
      · intro h4
        rw [classify4]
        rw [if_neg h4]
        exact List.mem_cons_self _ _
    · have hr := ih tok lab h1
      constructor
      · intro h4
        rw [classify4]
        by_cases hm : numDigits (digitsToNat m.1) = 4
        · rw [if_pos hm]
          exact List.mem_cons_of_mem _ (hr.1 h4)
        · rw [if_neg hm]
          exact hr.1 h4
      · intro h4
        rw [classify4]
        by_cases hm : numDigits (digitsToNat m.1) = 4
        · rw [if_pos hm]
          exact hr.2 h4
        · rw [if_neg hm]
          exact List.mem_cons_of_mem _ (hr.2 h4)

theorem classify4_snd_not_four :
    ∀ ms (e : Nat × String), e ∈ (classify4 ms).2 → numDigits e.1 ≠ 4 := by
  intro ms
  induction ms with
  | nil => intro e h; simp [classify4] at h
  | cons m rest ih =>
    intro e h
    rw [classify4] at h
    by_cases hm : numDigits (digitsToNat m.1) = 4
    · rw [if_pos hm] at h
      exact ih e h
    · rw [if_neg hm] at h
      rcases List.mem_cons.mp h with h1 | h1
      · subst h1
        exact hm
      · exact ih e h1

/-! Claim theorems. -/

/-- C1, counterexample: on the input "01234 - X\n" rule B captures the token
"01234", which has five digits, yet the ExtendedEntry collection is empty
and the record is filed as the StandardEntry (1234, "X"): the code classifies
by `len(str(int(token)))`, which discards leading zeros, so the decision is
not a function of the digit count of the captured token itself. -/
theorem c1_counterexample :
    (∃ p ∈ findall_4digits ("01234 - X\n").data, 5 ≤ p.1.length)
      ∧ (extract_extensions "01234 - X\n").2.2 = []
      ∧ (extract_extensions "01234 - X\n").2.1 = [(1234, "X")] := by
  decide

/-- C1, amended: a match of rule B is filed as a StandardEntry when the
number of decimal digits of the integer value of its captured token (leading
zeros discarded, as by Python `len(str(int(token)))`) is exactly 4, and as
an ExtendedEntry otherwise. -/
theorem c1_classification_by_value_digits (text : String) (tok lab : List Char)
    (h : (tok, lab) ∈ findall_4digits text.data) :
    (numDigits (digitsToNat tok) = 4 →
      (digitsToNat tok, (⟨pyStrip lab⟩ : String)) ∈ (extract_extensions text).2.1)
    ∧ (numDigits (digitsToNat tok) ≠ 4 →
      (digitsToNat tok, (⟨pyStrip lab⟩ : String)) ∈ (extract_extensions text).2.2) :=
  classify4_mem (findall_4digits text.data) tok lab h

/-- Witness for C1: the match ("10023", "Remote Bridge") of rule B on the
input "10023 - Remote Bridge\n" has a five-digit value and is filed as an
ExtendedEntry. -/
theorem c1_witness :
    (['1', '0', '0', '2', '3'], "Remote Bridge".data)
        ∈ findall_4digits ("10023 - Remote Bridge\n").data
      ∧ (10023, "Remote Bridge")
        ∈ (extract_extensions "10023 - Remote Bridge\n").2.2 := by
  constructor
  · decide
  · exact (c1_classification_by_value_digits "10023 - Remote Bridge\n"
      ['1', '0', '0', '2', '3'] "Remote Bridge".data (by decide)).2 (by decide)

/-- C2, counterexample: on the input "0000 - X\n" the ExtendedEntry
collection contains the record (0, "X"), whose id 0 is smaller than 10000
(the token "0000" has int value 0, and len(str(0)) = 1 sends it to the
longer-than-4-digits list). -/
theorem c2_counterexample :
    ¬ (∀ e ∈ (extract_extensions "0000 - X\n").2.2, 10000 ≤ e.1) := by
  decide

/-- C2, amended: every record in the ExtendedEntry output collection has an
id whose decimal representation does not have exactly 4 digits: id ≥ 10000,
or id ≤ 999 in the leading-zero cases such as "0000". -/
theorem c2_extended_entry_range (text : String) (e : Nat × String)
    (h : e ∈ (extract_extensions text).2.2) :
    e.1 < 1000 ∨ 10000 ≤ e.1 := by
  have hne := classify4_snd_not_four (findall_4digits text.data) e h
  by_contra hc
  push_neg at hc
  exact hne (numDigits_of_four_digits (by omega) (by omega))

/-- Witness for C2: the ExtendedEntry (10023, "Remote Bridge") produced from
"10023 - Remote Bridge\n" satisfies the amended range property. -/
theorem c2_witness :
    (10023, "Remote Bridge") ∈ (extract_extensions "10023 - Remote Bridge\n").2.2
      ∧ ((10023 : Nat) < 1000 ∨ 10000 ≤ (10023 : Nat)) :=
  ⟨by decide, c2_extended_entry_range "10023 - Remote Bridge\n"
    (10023, "Remote Bridge") (by decide)⟩

/-- C4: every record in the ShortEntry collection (data_3digits of
extract_extensions) has 300 ≤ id ≤ 399, a code whose characters all lie in
[A-Z0-9], and a label containing no decimal digit. -/
theorem c4_short_entry_invariants (text : String) (n : Nat) (code lab : String)
    (h : (n, code, lab) ∈ (extract_extensions text).1) :
    (300 ≤ n ∧ n ≤ 399) ∧ code.data.all isCodeChar = true
      ∧ lab.data.all (fun c => !isDigitChar c) = true := by
  simp only [extract_extensions] at h
  rw [List.mem_map] at h
  obtain ⟨m, hm, hfm⟩ := h
  have hP := scanAF_mem _ _ _ hm
  obtain ⟨hid, hcode, hlab⟩ := hP
  injection hfm with h1 h2
  injection h2 with h2 h3
  subst h1
  subst h2
  subst h3
  exact ⟨hid, isCodeChar_mem_pyUpper_pyStrip hcode, no_digit_pyStrip hlab⟩

/-- Witness for C4: the ShortEntry (301, "AB1CD", "Relay Station") produced
from "301 - AB1CD - Relay Station\n" satisfies the three invariants. -/
theorem c4_witness :
    (301, "AB1CD", "Relay Station")
        ∈ (extract_extensions "301 - AB1CD - Relay Station\n").1
      ∧ ((300 ≤ 301 ∧ 301 ≤ 399)
        ∧ ("AB1CD" : String).data.all isCodeChar = true
        ∧ ("Relay Station" : String).data.all (fun c => !isDigitChar c) = true) :=
  ⟨by decide, c4_short_entry_invariants "301 - AB1CD - Relay Station\n"
    301 "AB1CD" "Relay Station" (by decide)⟩

/-- C5: on the input "301 - AB1CD - Relay Station\n" extraction produces
exactly the ShortEntry (301, "AB1CD", "Relay Station"), and the StandardEntry
and ExtendedEntry collections are empty. -/
theorem c5_scenario_short_entry :
    extract_extensions "301 - AB1CD - Relay Station\n"
      = ([(301, "AB1CD", "Relay Station")], [], []) := by
  decide

/-- C6: a single source line can produce records in two categories: on the
one-line input "4300 - ABC - hello\n", rule B matches the whole line as the
StandardEntry (4300, "ABC - hello"), while rule A matches the 3xx tail of
the same digit run as the ShortEntry (300, "ABC", "hello"). -/
theorem c6_same_line_two_categories :
    extract_extensions "4300 - ABC - hello\n"
      = ([(300, "ABC", "hello")], [(4300, "ABC - hello")], []) := by
  decide

/-- C7, counterexample: the two files do not compute the same 3-digit
collection: on "301 - AB1CD - Relay Station\n", get_data_from_pdf.py stores
the row [301, "AB1CD"] while extract_extensions of hamvoip_directory_tool.py
stores [301, "AB1CD", "Relay Station"] (the older file drops the name
group). -/
theorem c7_counterexample :
    rows_3digits_pdf "301 - AB1CD - Relay Station\n"
      ≠ rows_3digits_tool "301 - AB1CD - Relay Station\n" := by
  decide

/-- C7, amended: on every input the two files compute identical 4-digit and
longer-than-4-digit collections, and their 3-digit collections agree up to
the third column: get_data_from_pdf.py keeps exactly the (id, code) part of
every extract_extensions record, in the same order, dropping the label. -/
theorem c7_extraction_agreement (text : String) :
    data_4digits_pdf text = (extract_extensions text).2.1
      ∧ data_longer_than_4digits_pdf text = (extract_extensions text).2.2
      ∧ data_3digits_pdf text
        = ((extract_extensions text).1).map (fun e => (e.1, e.2.1)) := by
  refine ⟨rfl, rfl, ?_⟩
  simp only [data_3digits_pdf, extract_extensions, List.map_map]
  rfl

/-- C8: a rule with zero matches contributes an empty output list (the
extraction functions are total, so no error is possible), and on the empty
input string all three output collections are empty. -/
theorem c8_empty_inputs :
    (∀ text : String, findall_3digits text.data = [] →
      (extract_extensions text).1 = [])
    ∧ (∀ text : String, findall_4digits text.data = [] →
      (extract_extensions text).2.1 = [] ∧ (extract_extensions text).2.2 = [])
    ∧ extract_extensions "" = ([], [], []) := by
  refine ⟨?_, ?_, by decide⟩
  · intro text h
    simp only [extract_extensions]
    rw [h]
    rfl
  · intro text h
    constructor
    · simp only [extract_extensions]
      rw [h]
      rfl
    · simp only [extract_extensions]
      rw [h]
      rfl

/-- Witness for C8: both hypotheses hold on the empty string, giving three
empty collections. -/
theorem c8_witness :
    (extract_extensions "").1 = []
      ∧ (extract_extensions "").2.1 = [] ∧ (extract_extensions "").2.2 = [] :=
  ⟨c8_empty_inputs.1 "" rfl, c8_empty_inputs.2.1 "" rfl⟩

/-- C10: on the input "4500 - \n" rule B matches with an empty captured
label, and the output contains the StandardEntry (4500, "") whose label is
the empty string after trimming. -/
theorem c10_empty_label :
    findall_4digits ("4500 - \n").data = [(['4', '5', '0', '0'], [])]
      ∧ extract_extensions "4500 - \n" = ([], [(4500, "")], []) := by
  decide
